import Mathlib

/-!
Verification of the read-only SQL enforcement core of the aurora-dsql-mcp-server.

The repository ships the test suite `tests/test_readonly_enforcement.py` for the
module `awslabs.aurora_dsql_mcp_server.mutable_sql_detector`, but the module
itself is not part of the source tree.  The three analyzers
(`detect_mutating_keywords`, `check_sql_injection_risk`,
`detect_transaction_bypass_attempt`) and their normalization helper are
therefore modelled here from the specification (spec.md §4.1-§4.4), and the
claims are settled against that model.
-/

set_option maxRecDepth 10000

namespace MutableSqlDetector

/-- Modelled from the spec: ASCII case folding used by the normalizer of the
missing `mutable_sql_detector.py` (§4.1: "all keyword comparisons are
case-insensitive").  Written as an explicit 26-way table so that every fact
about it is provable by case analysis. -/
def upChar (c : Char) : Char :=
  if c = 'a' then 'A' else if c = 'b' then 'B' else if c = 'c' then 'C'
  else if c = 'd' then 'D' else if c = 'e' then 'E' else if c = 'f' then 'F'
  else if c = 'g' then 'G' else if c = 'h' then 'H' else if c = 'i' then 'I'
  else if c = 'j' then 'J' else if c = 'k' then 'K' else if c = 'l' then 'L'
  else if c = 'm' then 'M' else if c = 'n' then 'N' else if c = 'o' then 'O'
  else if c = 'p' then 'P' else if c = 'q' then 'Q' else if c = 'r' then 'R'
  else if c = 's' then 'S' else if c = 't' then 'T' else if c = 'u' then 'U'
  else if c = 'v' then 'V' else if c = 'w' then 'W' else if c = 'x' then 'X'
  else if c = 'y' then 'Y' else if c = 'z' then 'Z' else c

/-- The lowercase ASCII letters, the domain on which `upChar` acts. -/
def LOWER_LETTERS : List Char :=
  ['a', 'b', 'c', 'd', 'e', 'f', 'g', 'h', 'i', 'j', 'k', 'l', 'm',
   'n', 'o', 'p', 'q', 'r', 's', 't', 'u', 'v', 'w', 'x', 'y', 'z']

/-- Modelled from the spec: word characters for whole-word boundary matching
(§4.2 and §9: regular-expression word-boundary semantics, i.e. letters, digits
and underscore; `DELETE` must not match inside `DELETE_LOG_TABLE`). -/
def isWordChar (c : Char) : Bool :=
  c.isAlphanum || c == '_'

mutual

/-- Modelled from the spec: comment stripping of the normalizer of the missing
`mutable_sql_detector.py` (§4.1).  Text outside comments is copied; `--` starts
a single-line comment, `/*` a block comment; a removed comment is replaced by a
single space. -/
def stripC : List Char → List Char
  | [] => []
  | [c] => [c]
  | c₁ :: c₂ :: rest =>
    if c₁ = '-' ∧ c₂ = '-' then ' ' :: stripLine rest
    else if c₁ = '/' ∧ c₂ = '*' then ' ' :: stripBlock rest
    else c₁ :: stripC (c₂ :: rest)

/-- Modelled from the spec: inside a `--` comment, discard until end of line
(§4.1); the newline itself is kept as token separation. -/
def stripLine : List Char → List Char
  | [] => []
  | c :: rest => if c = '\n' then '\n' :: stripC rest else stripLine rest

/-- Modelled from the spec: inside a block comment, discard until the closing
marker (§4.1). -/
def stripBlock : List Char → List Char
  | [] => []
  | [_] => []
  | c₁ :: c₂ :: rest =>
    if c₁ = '*' ∧ c₂ = '/' then stripC rest else stripBlock (c₂ :: rest)

end

/-- Modelled from the spec: the normalizer (§4.1) — strip comments, then fold
case.  All three analyzers scan this representation. -/
def normalizeChars (sql : String) : List Char :=
  (stripC sql.data).map upChar

/-- Tokenizer worker: accumulate a maximal run of word characters (`acc` holds
the current run, reversed) and flush it at every non-word boundary. -/
def tokensAux : List Char → List Char → List String
  | [], acc => if acc.isEmpty then [] else [String.mk acc.reverse]
  | c :: rest, acc =>
    if isWordChar c then tokensAux rest (c :: acc)
    else if acc.isEmpty then tokensAux rest []
    else String.mk acc.reverse :: tokensAux rest []

/-- Modelled from the spec: the maximal word-character runs of the normalized
text, in order.  A keyword occurs as a whole word exactly when it is one of
these tokens (§4.2, §9: "word-boundary anchors or equivalent tokenization"). -/
def wordTokens (cs : List Char) : List String :=
  tokensAux cs []

/-- Does `ps` occur as the leading tokens of `ts`? -/
def phraseAt : List String → List String → Bool
  | [], _ => true
  | _ :: _, [] => false
  | p :: ps, t :: ts => if p = t then phraseAt ps ts else false

/-- Modelled from the spec: a (possibly multi-word) keyword phrase matches when
its words occur as consecutive whole-word tokens (§4.2: multi-word keywords
match as ordered, whitespace-separated phrases). -/
def containsPhrase (ps : List String) : List String → Bool
  | [] => phraseAt ps []
  | t :: ts => phraseAt ps (t :: ts) || containsPhrase ps ts

/-- Modelled from the spec: the fixed keyword taxonomy of §4.2, as data — each
entry is (token phrase, literal keyword label, category label). -/
def MUTATING_TAXONOMY : List (List String × String × String) :=
  [ (["CREATE"], "CREATE", "DDL"),
    (["ALTER"], "ALTER", "DDL"),
    (["DROP"], "DROP", "DDL"),
    (["TRUNCATE"], "TRUNCATE", "DDL"),
    (["INSERT"], "INSERT", "DML"),
    (["UPDATE"], "UPDATE", "DML"),
    (["DELETE"], "DELETE", "DML"),
    (["MERGE"], "MERGE", "DML"),
    (["GRANT"], "GRANT", "PERMISSION"),
    (["REVOKE"], "REVOKE", "PERMISSION"),
    (["CREATE", "USER"], "CREATE USER", "PERMISSION"),
    (["DROP", "USER"], "DROP USER", "PERMISSION"),
    (["SET", "GLOBAL"], "SET GLOBAL", "SYSTEM"),
    (["FLUSH"], "FLUSH", "SYSTEM"),
    (["LOAD", "DATA"], "LOAD DATA", "SYSTEM"),
    (["INTO", "OUTFILE"], "SELECT INTO OUTFILE", "SYSTEM"),
    (["COPY"], "COPY", "SYSTEM") ]

/-- Modelled from the spec: `detect_mutating_keywords` of the missing
`mutable_sql_detector.py` (§4.2) — normalize, match every taxonomy phrase as a
whole-word phrase, and return the literal keyword label together with its
category label for every match (duplicate-free). -/
def detect_mutating_keywords (sql : String) : List String :=
  ((MUTATING_TAXONOMY.filter
      (fun e => containsPhrase e.1 (wordTokens (normalizeChars sql)))).foldr
    (fun e acc => e.2.1 :: e.2.2 :: acc) []).dedup

/-- Modelled from the spec: statement stacking (§4.3) — a semicolon followed by
further non-whitespace content in the normalized text. -/
def hasStacking : List Char → Bool
  | [] => false
  | c :: rest =>
    ((c == ';') && rest.any (fun d => !d.isWhitespace)) || hasStacking rest

/-- The single-quote character, written by code point. -/
def sQuote : Char := Char.ofNat 39

/-- Read one literal for the tautology pattern: a quoted string (the characters
between two quotes) or a run of digits.  Returns the literal and the remaining
text. -/
def readLiteral (cs : List Char) : Option (List Char × List Char) :=
  match cs with
  | [] => none
  | c :: rest =>
    if c = sQuote then
      match rest.dropWhile (fun d => !(d == sQuote)) with
      | d :: rest2 =>
        if d = sQuote then some (rest.takeWhile (fun d => !(d == sQuote)), rest2) else none
      | [] => none
    else
      let ds := (c :: rest).takeWhile (fun d => d.isDigit)
      if ds.isEmpty then none
      else some (ds, (c :: rest).dropWhile (fun d => d.isDigit))

/-- Is the first character of the text a non-word character?  False on empty
text. -/
def headNonWord : List Char → Bool
  | [] => false
  | c :: _ => !isWordChar c

/-- Does a self-equal literal comparison `<literal> = <same literal>` follow
(up to whitespace)? -/
def tautBody (rest : List Char) : Bool :=
  match readLiteral (rest.dropWhile (fun c => c.isWhitespace)) with
  | none => false
  | some (l1, r1) =>
    match r1.dropWhile (fun c => c.isWhitespace) with
    | '=' :: r2 =>
      (match readLiteral (r2.dropWhile (fun c => c.isWhitespace)) with
       | some (l2, _) => l1 == l2
       | none => false)
    | _ => false

/-- Given the text right after a whole-word `OR`: a word boundary, then a
self-equal literal comparison. -/
def tautAt (rest : List Char) : Bool :=
  headNonWord rest && tautBody rest

/-- Given the text right after the character `O`: the letter `R`, then the
tail of the tautology pattern. -/
def orTailTaut : List Char → Bool
  | [] => false
  | r :: rest2 => (r == 'R') && tautAt rest2

/-- Scanner for the tautology pattern: at every position, fire when a
whole-word `OR` (word boundary on both sides; `prevW` records whether the
previous character was a word character) is followed by a self-equal literal
comparison. -/
def tautScan : Bool → List Char → Bool
  | _, [] => false
  | prevW, c :: rest =>
    ((c == 'O') && !prevW && orTailTaut rest) || tautScan (isWordChar c) rest

/-- Modelled from the spec: tautology signature of §4.3 — `OR <literal> =
<same-literal>` with optional whitespace and quoting, `OR` as a whole word. -/
def hasTautology (cs : List Char) : Bool :=
  tautScan false cs

/-- Modelled from the spec: unexpected `UNION [ALL] SELECT` signature (§4.3). -/
def hasUnionSelect (ts : List String) : Bool :=
  containsPhrase ["UNION", "SELECT"] ts || containsPhrase ["UNION", "ALL", "SELECT"] ts

/-- Modelled from the spec: trailing comment termination (§4.3) — the raw
statement ends in a `--` marker (ignoring trailing whitespace). -/
def hasTrailingDashDash (sql : String) : Bool :=
  match sql.data.reverse.dropWhile (fun c => c.isWhitespace) with
  | '-' :: '-' :: _ => true
  | _ => false

/-- Modelled from the spec: `check_sql_injection_risk` of the missing
`mutable_sql_detector.py` (§4.3) — one finding per matched heuristic
signature: tautology, statement stacking, unexpected UNION SELECT, trailing
comment termination. -/
def check_sql_injection_risk (sql : String) : List String :=
  (if hasTautology (normalizeChars sql) then ["TAUTOLOGY"] else []) ++
  (if hasStacking (normalizeChars sql) then ["STACKED_STATEMENTS"] else []) ++
  (if hasUnionSelect (wordTokens (normalizeChars sql)) then ["UNION_INJECTION"] else []) ++
  (if hasTrailingDashDash sql then ["COMMENT_TERMINATION"] else [])

/-- Modelled from the spec: explicit transaction-control keywords (§4.4 —
COMMIT, ROLLBACK, BEGIN, START TRANSACTION) present as whole-word phrases. -/
def hasTxnKeyword (ts : List String) : Bool :=
  containsPhrase ["COMMIT"] ts || containsPhrase ["ROLLBACK"] ts ||
  containsPhrase ["BEGIN"] ts || containsPhrase ["START", "TRANSACTION"] ts

/-- Some §4.2 taxonomy phrase matches among the tokens. -/
def hasMutatingKeyword (ts : List String) : Bool :=
  MUTATING_TAXONOMY.any (fun e => containsPhrase e.1 ts)

/-- Modelled from the spec: a mutating keyword (per §4.2) occurring after a
transaction-control keyword in the token sequence (§4.4). -/
def mutatingAfterTxn : List String → Bool
  | [] => false
  | t :: ts =>
    ((t == "COMMIT" || t == "ROLLBACK" || t == "BEGIN" ||
        (t == "START" && ts.head? == some "TRANSACTION")) && hasMutatingKeyword ts)
    || mutatingAfterTxn ts

/-- Modelled from the spec: `detect_transaction_bypass_attempt` of the missing
`mutable_sql_detector.py` (§4.4) — true iff a transaction-control keyword is
present and there is evidence of multiple statements: a semicolon-delimited
boundary with follow-on content, or a mutating keyword after the
transaction-control keyword. -/
def detect_transaction_bypass_attempt (sql : String) : Bool :=
  hasTxnKeyword (wordTokens (normalizeChars sql)) &&
    (hasStacking (normalizeChars sql) || mutatingAfterTxn (wordTokens (normalizeChars sql)))

/-- The §4.4 detection-rule ingredient "the normalized text contains an
explicit transaction-control keyword", stated on its own for the claim about
the detection rule. -/
def txnControlPresent (sql : String) : Bool :=
  hasTxnKeyword (wordTokens (normalizeChars sql))

/-- The §4.4 detection-rule ingredient "the text contains evidence of multiple
statements": a semicolon-delimited statement boundary with follow-on content,
or a mutating keyword after the transaction-control keyword. -/
def multiStatementEvidence (sql : String) : Bool :=
  hasStacking (normalizeChars sql) ||
  mutatingAfterTxn (wordTokens (normalizeChars sql))

/-- A chunk of text that neither opens a comment (`--` or `/*` nowhere inside)
nor ends in a character that could fuse with what follows into a comment
opener.  Comment stripping copies such a chunk verbatim. -/
def plainChars : List Char → Bool
  | [] => true
  | [c] => !(c == '-') && !(c == '/')
  | c₁ :: c₂ :: rest =>
    !((c₁ == '-') && (c₂ == '-')) && !((c₁ == '/') && (c₂ == '*')) &&
    plainChars (c₂ :: rest)

/-- Head words of every §4.2 taxonomy phrase, the §4.4 transaction-control
words, and the words opening a §4.3 token-level injection signature.  A query
none of whose tokens is in this list is a plain read. -/
def FORBIDDEN_READ_TOKENS : List String :=
  ["CREATE", "ALTER", "DROP", "TRUNCATE", "INSERT", "UPDATE", "DELETE",
   "MERGE", "GRANT", "REVOKE", "SET", "FLUSH", "LOAD", "INTO", "COPY",
   "COMMIT", "ROLLBACK", "BEGIN", "START", "UNION", "OR"]

/-- A pure SELECT/WITH read in the sense of §8: no token of the normalized
text is a taxonomy, transaction-control or signature-opening word, the
normalized text has no semicolon, and the raw text does not end in a `--`
comment marker. -/
def isSafeRead (sql : String) : Bool :=
  (wordTokens (normalizeChars sql)).all (fun t => !FORBIDDEN_READ_TOKENS.contains t) &&
  !(normalizeChars sql).any (fun c => c == ';') &&
  !hasTrailingDashDash sql

/-! ## Facts about the case folder -/

/-- Characters other than lowercase letters are fixed by the case folder. -/
theorem upChar_of_not_lower (c : Char) (h : c ∉ LOWER_LETTERS) : upChar c = c := by
  simp only [LOWER_LETTERS, List.mem_cons, List.not_mem_nil, or_false, not_or] at h
  obtain ⟨h1, h2, h3, h4, h5, h6, h7, h8, h9, h10, h11, h12, h13, h14, h15, h16, h17, h18,
    h19, h20, h21, h22, h23, h24, h25, h26⟩ := h
  unfold upChar
  rw [if_neg h1, if_neg h2, if_neg h3, if_neg h4, if_neg h5, if_neg h6, if_neg h7, if_neg h8,
    if_neg h9, if_neg h10, if_neg h11, if_neg h12, if_neg h13, if_neg h14, if_neg h15,
    if_neg h16, if_neg h17, if_neg h18, if_neg h19, if_neg h20, if_neg h21, if_neg h22,
    if_neg h23, if_neg h24, if_neg h25, if_neg h26]

/-- The case folder is idempotent. -/
theorem upChar_upChar (c : Char) : upChar (upChar c) = upChar c := by
  by_cases hc : c ∈ LOWER_LETTERS
  · exact (show ∀ x ∈ LOWER_LETTERS, upChar (upChar x) = upChar x by decide) c hc
  · rw [upChar_of_not_lower c hc, upChar_of_not_lower c hc]

/-- The case folder neither produces nor destroys a dash. -/
theorem upChar_eq_dash (c : Char) : upChar c = '-' ↔ c = '-' := by
  by_cases hc : c ∈ LOWER_LETTERS
  · exact (show ∀ x ∈ LOWER_LETTERS, (upChar x = '-' ↔ x = '-') by decide) c hc
  · rw [upChar_of_not_lower c hc]

/-- The case folder neither produces nor destroys a slash. -/
theorem upChar_eq_slash (c : Char) : upChar c = '/' ↔ c = '/' := by
  by_cases hc : c ∈ LOWER_LETTERS
  · exact (show ∀ x ∈ LOWER_LETTERS, (upChar x = '/' ↔ x = '/') by decide) c hc
  · rw [upChar_of_not_lower c hc]

/-- The case folder neither produces nor destroys a star. -/
theorem upChar_eq_star (c : Char) : upChar c = '*' ↔ c = '*' := by
  by_cases hc : c ∈ LOWER_LETTERS
  · exact (show ∀ x ∈ LOWER_LETTERS, (upChar x = '*' ↔ x = '*') by decide) c hc
  · rw [upChar_of_not_lower c hc]

/-- The case folder neither produces nor destroys a newline. -/
theorem upChar_eq_newline (c : Char) : upChar c = '\n' ↔ c = '\n' := by
  by_cases hc : c ∈ LOWER_LETTERS
  · exact (show ∀ x ∈ LOWER_LETTERS, (upChar x = '\n' ↔ x = '\n') by decide) c hc
  · rw [upChar_of_not_lower c hc]

/-! ## The comment stripper copies plain text -/

/-- Destructor for `plainChars` on a two-or-more-element list. -/
theorem plainChars_cons_cons {c₁ c₂ : Char} {rest : List Char}
    (h : plainChars (c₁ :: c₂ :: rest) = true) :
    ¬(c₁ = '-' ∧ c₂ = '-') ∧ ¬(c₁ = '/' ∧ c₂ = '*') ∧ plainChars (c₂ :: rest) = true := by
  rw [plainChars] at h
  simp only [Bool.and_eq_true, Bool.not_eq_true'] at h
  refine ⟨?_, ?_, h.2⟩
  · rintro ⟨rfl, rfl⟩
    simpa using h.1.1
  · rintro ⟨rfl, rfl⟩
    simpa using h.1.2

/-- Destructor for `plainChars` on a one-element list. -/
theorem plainChars_single {c : Char} (h : plainChars [c] = true) : c ≠ '-' ∧ c ≠ '/' := by
  rw [plainChars] at h
  simp only [Bool.and_eq_true, Bool.not_eq_true'] at h
  constructor
  · rintro rfl; simpa using h.1
  · rintro rfl; simpa using h.2

/-- A character that cannot begin a comment is copied by the stripper. -/
theorem stripC_cons (c : Char) (hc : c ≠ '-' ∧ c ≠ '/') (b : List Char) :
    stripC (c :: b) = c :: stripC b := by
  cases b with
  | nil => rfl
  | cons d b' =>
    rw [stripC]
    rw [if_neg (by tauto), if_neg (by tauto)]

/-- The stripper copies a plain chunk verbatim and continues after it. -/
theorem stripC_append : ∀ (a : List Char), plainChars a = true →
    ∀ b, stripC (a ++ b) = a ++ stripC b
  | [], _, _ => rfl
  | [c], ha, b => by
    simpa using stripC_cons c (plainChars_single ha) b
  | c :: c₂ :: rest, ha, b => by
    have h := plainChars_cons_cons ha
    have hrec := stripC_append (c₂ :: rest) h.2.2 b
    simp only [List.cons_append]
    rw [stripC, if_neg h.1, if_neg h.2.1]
    simp only [List.cons_append] at hrec
    rw [hrec]

/-- Inside a line comment, everything up to the newline is discarded. -/
theorem stripLine_append : ∀ (s : List Char), (∀ c ∈ s, c ≠ '\n') →
    ∀ b, stripLine (s ++ '\n' :: b) = '\n' :: stripC b
  | [], _, b => by
    rw [List.nil_append, stripLine, if_pos rfl]
  | c :: s', hs, b => by
    have hc : c ≠ '\n' := hs c (by simp)
    have hrec := stripLine_append s' (fun d hd => hs d (by simp [hd])) b
    rw [List.cons_append, stripLine, if_neg hc]
    exact hrec

/-- Inside a block comment, everything up to the closing marker is discarded. -/
theorem stripBlock_append : ∀ (s : List Char), (∀ c ∈ s, c ≠ '*') →
    ∀ b, stripBlock (s ++ '*' :: '/' :: b) = stripC b
  | [], _, b => by
    rw [List.nil_append, stripBlock, if_pos ⟨rfl, rfl⟩]
  | [c], hs, b => by
    have hc : c ≠ '*' := hs c (by simp)
    simp only [List.cons_append, List.nil_append]
    rw [stripBlock, if_neg (by rintro ⟨rfl, _⟩; exact hc rfl)]
    rw [stripBlock, if_pos ⟨rfl, rfl⟩]
  | c :: c₂ :: rest, hs, b => by
    have hc : c ≠ '*' := hs c (by simp)
    have hrec := stripBlock_append (c₂ :: rest) (fun d hd => hs d (by simp [hd])) b
    simp only [List.cons_append]
    rw [stripBlock, if_neg (by rintro ⟨rfl, _⟩; exact hc rfl)]
    simp only [List.cons_append] at hrec
    exact hrec

/-! ## Comment stripping commutes with case folding -/

/-- One-step closed form for the line stripper on a singleton. -/
theorem stripLine_single (c : Char) :
    stripLine [c] = if c = '\n' then ['\n'] else [] := by
  rw [stripLine]
  by_cases h : c = '\n'
  · rw [if_pos h, if_pos h]; rfl
  · rw [if_neg h, if_neg h]; rfl

/-- Combined commutation statement for the three mutually recursive strippers,
by strong induction on the length of the text. -/
theorem strip_map_upChar : ∀ (n : Nat) (l : List Char), l.length ≤ n →
    stripC (l.map upChar) = (stripC l).map upChar ∧
    stripLine (l.map upChar) = (stripLine l).map upChar ∧
    stripBlock (l.map upChar) = (stripBlock l).map upChar := by
  intro n
  induction n with
  | zero =>
    intro l hl
    have hnil : l = [] := List.eq_nil_of_length_eq_zero (Nat.le_zero.mp hl)
    subst hnil
    exact ⟨rfl, rfl, rfl⟩
  | succ n ih =>
    intro l hl
    match l with
    | [] => exact ⟨rfl, rfl, rfl⟩
    | [c] =>
      refine ⟨rfl, ?_, rfl⟩
      show stripLine [upChar c] = (stripLine [c]).map upChar
      rw [stripLine_single, stripLine_single]
      by_cases hc : c = '\n'
      · rw [if_pos hc, if_pos ((upChar_eq_newline c).mpr hc)]; rfl
      · rw [if_neg hc, if_neg (fun h => hc ((upChar_eq_newline c).mp h))]; rfl
    | c₁ :: c₂ :: rest =>
      have hlen1 : (c₂ :: rest).length ≤ n := by
        simp only [List.length_cons] at hl ⊢
        omega
      have hlen2 : rest.length ≤ n := by
        simp only [List.length_cons] at hl
        omega
      have hrecC := (ih (c₂ :: rest) hlen1).1
      have hrecLine := (ih (c₂ :: rest) hlen1).2.1
      have hrecBlock := (ih (c₂ :: rest) hlen1).2.2
      have hrestC := (ih rest hlen2).1
      have hrestLine := (ih rest hlen2).2.1
      have hrestBlock := (ih rest hlen2).2.2
      simp only [List.map_cons] at hrecC hrecLine hrecBlock
      refine ⟨?_, ?_, ?_⟩
      · show stripC (upChar c₁ :: upChar c₂ :: rest.map upChar) =
          (stripC (c₁ :: c₂ :: rest)).map upChar
        by_cases h1 : c₁ = '-' ∧ c₂ = '-'
        · obtain ⟨rfl, rfl⟩ := h1
          conv_lhs => rw [show upChar '-' = '-' from rfl, stripC, if_pos ⟨rfl, rfl⟩]
          conv_rhs => rw [stripC, if_pos ⟨rfl, rfl⟩]
          simp only [List.map_cons]
          rw [hrestLine, show upChar ' ' = ' ' from rfl]
        · by_cases h2 : c₁ = '/' ∧ c₂ = '*'
          · obtain ⟨rfl, rfl⟩ := h2
            conv_lhs => rw [show upChar '/' = '/' from rfl, show upChar '*' = '*' from rfl,
              stripC, if_neg (show ¬('/' = '-' ∧ '*' = '-') by decide), if_pos ⟨rfl, rfl⟩]
            conv_rhs => rw [stripC, if_neg (show ¬('/' = '-' ∧ '*' = '-') by decide),
              if_pos ⟨rfl, rfl⟩]
            simp only [List.map_cons]
            rw [hrestBlock, show upChar ' ' = ' ' from rfl]
          · have h1' : ¬(upChar c₁ = '-' ∧ upChar c₂ = '-') := fun h =>
              h1 ⟨upChar_eq_dash c₁ |>.mp h.1, upChar_eq_dash c₂ |>.mp h.2⟩
            have h2' : ¬(upChar c₁ = '/' ∧ upChar c₂ = '*') := fun h =>
              h2 ⟨upChar_eq_slash c₁ |>.mp h.1, upChar_eq_star c₂ |>.mp h.2⟩
            conv_lhs => rw [stripC, if_neg h1', if_neg h2']
            conv_rhs => rw [stripC, if_neg h1, if_neg h2]
            simp only [List.map_cons]
            rw [hrecC]
      · show stripLine (upChar c₁ :: upChar c₂ :: rest.map upChar) =
          (stripLine (c₁ :: c₂ :: rest)).map upChar
        by_cases hc : c₁ = '\n'
        · subst hc
          conv_lhs => rw [show upChar '\n' = '\n' from rfl, stripLine, if_pos rfl]
          conv_rhs => rw [stripLine, if_pos rfl]
          simp only [List.map_cons]
          rw [hrecC, show upChar '\n' = '\n' from rfl]
        · have hup : ¬(upChar c₁ = '\n') := fun h => hc (upChar_eq_newline c₁ |>.mp h)
          conv_lhs => rw [stripLine, if_neg hup]
          conv_rhs => rw [stripLine, if_neg hc]
          exact hrecLine
      · show stripBlock (upChar c₁ :: upChar c₂ :: rest.map upChar) =
          (stripBlock (c₁ :: c₂ :: rest)).map upChar
        by_cases h1 : c₁ = '*' ∧ c₂ = '/'
        · obtain ⟨rfl, rfl⟩ := h1
          conv_lhs => rw [show upChar '*' = '*' from rfl, show upChar '/' = '/' from rfl,
            stripBlock, if_pos ⟨rfl, rfl⟩]
          conv_rhs => rw [stripBlock, if_pos ⟨rfl, rfl⟩]
          exact hrestC
        · have h1' : ¬(upChar c₁ = '*' ∧ upChar c₂ = '/') := fun h =>
            h1 ⟨upChar_eq_star c₁ |>.mp h.1, upChar_eq_slash c₂ |>.mp h.2⟩
          conv_lhs => rw [stripBlock, if_neg h1']
          conv_rhs => rw [stripBlock, if_neg h1]
          exact hrecBlock

/-- Comment stripping commutes with case folding. -/
theorem stripC_map_upChar (l : List Char) :
    stripC (l.map upChar) = (stripC l).map upChar :=
  (strip_map_upChar l.length l le_rfl).1

/-- Two raw texts that agree after case folding normalize identically. -/
theorem normalizeChars_eq_of_fold {s t : String}
    (h : s.data.map upChar = t.data.map upChar) :
    normalizeChars s = normalizeChars t := by
  have key : ∀ l : List Char, (stripC l).map upChar = (stripC (l.map upChar)).map upChar := by
    intro l
    rw [stripC_map_upChar, List.map_map]
    have hup : upChar ∘ upChar = upChar := funext upChar_upChar
    rw [hup]
  unfold normalizeChars
  rw [key s.data, h, ← key t.data]

/-! ## Tokenizer lemmas -/

/-- Splitting the tokenizer at a non-word character: everything before the
separator and everything after it tokenize independently. -/
theorem tokensAux_append_nonword (c : Char) (hc : isWordChar c = false) (y : List Char) :
    ∀ (x acc : List Char),
      tokensAux (x ++ c :: y) acc = tokensAux (x ++ [c]) acc ++ tokensAux y []
  | [], acc => by
    by_cases ha : acc.isEmpty <;>
      simp [tokensAux, hc, ha]
  | d :: x', acc => by
    have ih := tokensAux_append_nonword c hc y x'
    by_cases hd : isWordChar d <;> by_cases ha : acc.isEmpty <;>
      simp [tokensAux, hd, ha, ih]

/-- Splitting the token list at a non-word separator. -/
theorem wordTokens_append_sep (x : List Char) (c : Char) (hc : isWordChar c = false)
    (y : List Char) :
    wordTokens (x ++ c :: y) = wordTokens (x ++ [c]) ++ wordTokens y :=
  tokensAux_append_nonword c hc y x []

/-- A leading non-word character does not affect the token list. -/
theorem wordTokens_cons_nonword (c : Char) (hc : isWordChar c = false) (y : List Char) :
    wordTokens (c :: y) = wordTokens y := by
  simp [wordTokens, tokensAux, hc]

/-! ## Phrase matching lemmas -/

/-- Destructor for a phrase matching at the head of a token list. -/
theorem phraseAt_cons {p t : String} {ps ts : List String}
    (h : phraseAt (p :: ps) (t :: ts) = true) : p = t ∧ phraseAt ps ts = true := by
  rw [phraseAt] at h
  by_cases hpt : p = t
  · exact ⟨hpt, by rwa [if_pos hpt] at h⟩
  · rw [if_neg hpt] at h
    exact absurd h (by simp)

/-- If a non-empty phrase matches somewhere in the tokens, its first word is a
token. -/
theorem containsPhrase_head_mem (p : String) (ps : List String) :
    ∀ (ts : List String), containsPhrase (p :: ps) ts = true → p ∈ ts
  | [], h => by
    rw [containsPhrase, phraseAt] at h
    exact absurd h (by simp)
  | t :: ts, h => by
    rw [containsPhrase, Bool.or_eq_true] at h
    rcases h with h | h
    · rcases phraseAt_cons h with ⟨rfl, _⟩
      exact List.mem_cons_self _ _
    · exact List.mem_cons_of_mem _ (containsPhrase_head_mem p ps ts h)

/-- A single-word phrase matches exactly when the word is a token. -/
theorem containsPhrase_singleton (w : String) :
    ∀ (ts : List String), containsPhrase [w] ts = true ↔ w ∈ ts
  | [] => by
    rw [containsPhrase, phraseAt]
    simp
  | t :: ts => by
    rw [containsPhrase, Bool.or_eq_true, containsPhrase_singleton w ts]
    constructor
    · rintro (h | h)
      · rcases phraseAt_cons h with ⟨rfl, _⟩
        exact List.mem_cons_self _ _
      · exact List.mem_cons_of_mem _ h
    · intro h
      rcases List.mem_cons.mp h with rfl | h
      · left
        rw [phraseAt, if_pos rfl, phraseAt]
      · right
        exact h

/-! ## Membership in the mutating-keyword result -/

/-- Membership in the label accumulator of `detect_mutating_keywords`. -/
theorem mem_foldr_labels (k : String) :
    ∀ (l : List (List String × String × String)),
      k ∈ l.foldr (fun e acc => e.2.1 :: e.2.2 :: acc) [] ↔
        ∃ e ∈ l, k = e.2.1 ∨ k = e.2.2
  | [] => by simp
  | e :: l => by
    rw [List.foldr_cons]
    constructor
    · intro h
      rcases List.mem_cons.mp h with rfl | h
      · exact ⟨e, List.mem_cons_self _ _, Or.inl rfl⟩
      rcases List.mem_cons.mp h with rfl | h
      · exact ⟨e, List.mem_cons_self _ _, Or.inr rfl⟩
      · rcases (mem_foldr_labels k l).mp h with ⟨e', he', hk⟩
        exact ⟨e', List.mem_cons_of_mem _ he', hk⟩
    · rintro ⟨e', he', hk⟩
      rcases List.mem_cons.mp he' with rfl | he'
      · rcases hk with rfl | rfl
        · exact List.mem_cons_self _ _
        · exact List.mem_cons_of_mem _ (List.mem_cons_self _ _)
      · exact List.mem_cons_of_mem _ (List.mem_cons_of_mem _
          ((mem_foldr_labels k l).mpr ⟨e', he', hk⟩))

/-- Characterization of the result of `detect_mutating_keywords`: a label is
reported exactly when some taxonomy entry whose phrase matches the tokens of
the normalized text carries it. -/
theorem mem_detect_iff (sql : String) (k : String) :
    k ∈ detect_mutating_keywords sql ↔
      ∃ e ∈ MUTATING_TAXONOMY,
        containsPhrase e.1 (wordTokens (normalizeChars sql)) = true ∧
          (k = e.2.1 ∨ k = e.2.2) := by
  unfold detect_mutating_keywords
  rw [List.mem_dedup, mem_foldr_labels]
  constructor
  · rintro ⟨e, he, hk⟩
    rw [List.mem_filter] at he
    exact ⟨e, he.1, he.2, hk⟩
  · rintro ⟨e, he, hph, hk⟩
    exact ⟨e, List.mem_filter.mpr ⟨he, hph⟩, hk⟩

/-! ## Stacking lemmas -/

/-- Splitting the stacking scanner over an append. -/
theorem hasStacking_append : ∀ (x y : List Char),
    (hasStacking (x ++ y) = true ↔
      hasStacking x = true ∨
        (x.any (fun c => c == ';') = true ∧ y.any (fun d => !d.isWhitespace) = true) ∨
        hasStacking y = true)
  | [], y => by simp [hasStacking]
  | c :: x', y => by
    rw [List.cons_append, hasStacking, hasStacking]
    simp only [Bool.or_eq_true, Bool.and_eq_true, List.any_append, List.any_cons,
      hasStacking_append x' y]
    by_cases hc : c == ';' <;> by_cases hx : x'.any (fun d => !d.isWhitespace) <;>
      by_cases hy : y.any (fun d => !d.isWhitespace) <;> simp [hc, hx, hy]

/-- If the stacking scanner fires, the text contains a semicolon. -/
theorem hasStacking_of_no_semicolon : ∀ (cs : List Char),
    cs.any (fun c => c == ';') = false → hasStacking cs = false
  | [], _ => rfl
  | c :: rest, h => by
    rw [List.any_cons, Bool.or_eq_false_iff] at h
    rw [hasStacking, h.1, Bool.false_and, Bool.false_or]
    exact hasStacking_of_no_semicolon rest h.2

/-! ## The tautology scanner implies an `OR` token -/

/-- If the tautology scanner fires, `OR` occurs as a whole-word token: the
boundary conditions of the scanner line up with a token flush. -/
theorem tautScan_or_token : ∀ (cs acc : List Char) (prevW : Bool),
    (prevW = !acc.isEmpty) → tautScan prevW cs = true →
      "OR" ∈ tokensAux cs acc
  | [], _, _, _, h => by
    rw [tautScan] at h
    exact absurd h (by simp)
  | c :: rest, acc, prevW, hinv, h => by
    rw [tautScan, Bool.or_eq_true] at h
    rcases h with h | h
    · simp only [Bool.and_eq_true, beq_iff_eq, Bool.not_eq_true'] at h
      obtain ⟨⟨rfl, hprev⟩, htail⟩ := h
      have hacc : acc = [] := by
        rw [hprev] at hinv
        cases acc with
        | nil => rfl
        | cons a as => simp at hinv
      subst hacc
      cases rest with
      | nil => rw [orTailTaut] at htail; exact absurd htail (by simp)
      | cons r rest2 =>
        rw [orTailTaut, Bool.and_eq_true, beq_iff_eq] at htail
        obtain ⟨rfl, htaut⟩ := htail
        rw [tautAt, Bool.and_eq_true] at htaut
        cases rest2 with
        | nil => rw [headNonWord] at htaut; exact absurd htaut.1 (by simp)
        | cons d rest3 =>
          rw [headNonWord, Bool.not_eq_true'] at htaut
          rw [tokensAux, if_pos (show isWordChar 'O' = true by decide)]
          rw [tokensAux, if_pos (show isWordChar 'R' = true by decide)]
          rw [tokensAux, if_neg (by rw [htaut.1]; simp)]
          rw [if_neg (by simp)]
          exact List.mem_cons_self _ _
    · by_cases hw : isWordChar c
      · have hmem := tautScan_or_token rest (c :: acc) (isWordChar c) (by simp [hw]) h
        rw [tokensAux, if_pos hw]
        exact hmem
      · have hmem := tautScan_or_token rest [] (isWordChar c)
          (by simp [Bool.of_not_eq_true hw]) h
        rw [tokensAux, if_neg hw]
        by_cases ha : acc.isEmpty
        · rw [if_pos ha]
          exact hmem
        · rw [if_neg ha]
          exact List.mem_cons_of_mem _ hmem

/-! ## Keyword-leading inputs -/

/-- A word token of an uppercase space-terminated plain leading chunk survives
normalization of the full input, whatever follows. -/
theorem mem_wordTokens_leading (x : List Char) (w : String) (rest : String)
    (hplain : plainChars (x ++ [' ']) = true)
    (hup : (x ++ [' ']).map upChar = x ++ [' '])
    (hw : w ∈ wordTokens (x ++ [' '])) :
    w ∈ wordTokens (normalizeChars (⟨x ++ [' ']⟩ ++ rest)) := by
  unfold normalizeChars
  rw [String.data_append]
  show w ∈ wordTokens ((stripC ((x ++ [' ']) ++ rest.data)).map upChar)
  rw [stripC_append _ hplain _, List.map_append, hup, List.append_assoc]
  show w ∈ wordTokens (x ++ ' ' :: (stripC rest.data).map upChar)
  rw [wordTokens_append_sep x ' ' (by decide) _]
  exact List.mem_append_left _ hw

/-- Package a taxonomy match into result membership. -/
theorem detect_of_entry (sql : String) (e : List String × String × String)
    (he : e ∈ MUTATING_TAXONOMY)
    (hph : containsPhrase e.1 (wordTokens (normalizeChars sql)) = true) :
    e.2.1 ∈ detect_mutating_keywords sql ∧ e.2.2 ∈ detect_mutating_keywords sql :=
  ⟨(mem_detect_iff sql e.2.1).mpr ⟨e, he, hph, Or.inl rfl⟩,
   (mem_detect_iff sql e.2.2).mpr ⟨e, he, hph, Or.inr rfl⟩⟩

/-! ## The claims -/

/-- Claim C2: `detect_transaction_bypass_attempt` returns true iff the
normalized text contains an explicit transaction-control keyword and the text
contains evidence of multiple statements (a semicolon-delimited statement
boundary with follow-on content, or a mutating keyword after the
transaction-control keyword); in particular a bare `COMMIT;` with no follow-on
content returns false. -/
theorem claim_C2_txn_bypass_rule :
    (∀ sql : String, detect_transaction_bypass_attempt sql = true ↔
      (txnControlPresent sql = true ∧ multiStatementEvidence sql = true)) ∧
    detect_transaction_bypass_attempt "COMMIT;" = false := by
  constructor
  · intro sql
    unfold detect_transaction_bypass_attempt txnControlPresent multiStatementEvidence
    rw [Bool.and_eq_true]
  · decide

/-- Claim C3: a semicolon followed by further non-whitespace content (more
than one statement in a single input) always yields an injection finding,
regardless of what the second statement is. -/
theorem claim_C3_stacking_finding (sql : String)
    (h : hasStacking (normalizeChars sql) = true) :
    check_sql_injection_risk sql ≠ [] := by
  unfold check_sql_injection_risk
  rw [if_pos h]
  simp

/-- Witness for C3 at a concrete stacked input from the repository's tests. -/
theorem claim_C3_witness :
    hasStacking (normalizeChars "SELECT 1; DROP TABLE users") = true ∧
    check_sql_injection_risk "SELECT 1; DROP TABLE users" ≠ [] :=
  ⟨by decide, claim_C3_stacking_finding "SELECT 1; DROP TABLE users" (by decide)⟩

/-- Claim C4: every input containing a tautology pattern `OR <literal> =
<same-literal>` yields a non-empty finding list; in particular the
tests' tautology query yields at least one finding. -/
theorem claim_C4_tautology_finding :
    (∀ sql : String, hasTautology (normalizeChars sql) = true →
      check_sql_injection_risk sql ≠ []) ∧
    check_sql_injection_risk "SELECT * FROM users WHERE id = 1 OR 1=1" ≠ [] := by
  constructor
  · intro sql h
    unfold check_sql_injection_risk
    rw [if_pos h]
    simp
  · decide

/-- Witness for C4 at a concrete tautology input. -/
theorem claim_C4_witness :
    hasTautology (normalizeChars "SELECT 9 OR 1=1") = true ∧
    check_sql_injection_risk "SELECT 9 OR 1=1" ≠ [] :=
  ⟨by decide, claim_C4_tautology_finding.1 "SELECT 9 OR 1=1" (by decide)⟩

/-- Every `CREATE TABLE ...` input reports both CREATE and DDL. -/
theorem detect_create_table_mem (rest : String) :
    "CREATE" ∈ detect_mutating_keywords ("CREATE TABLE " ++ rest) ∧
    "DDL" ∈ detect_mutating_keywords ("CREATE TABLE " ++ rest) := by
  have htok : "CREATE" ∈ wordTokens (normalizeChars ("CREATE TABLE " ++ rest)) :=
    mem_wordTokens_leading "CREATE TABLE".data "CREATE" rest
      (by decide) (by decide) (by decide)
  exact detect_of_entry _ (["CREATE"], "CREATE", "DDL") (by decide)
    ((containsPhrase_singleton _ _).mpr htok)

/-- Every `DROP TABLE ...` input reports both DROP and DDL. -/
theorem detect_drop_table_mem (rest : String) :
    "DROP" ∈ detect_mutating_keywords ("DROP TABLE " ++ rest) ∧
    "DDL" ∈ detect_mutating_keywords ("DROP TABLE " ++ rest) := by
  have htok : "DROP" ∈ wordTokens (normalizeChars ("DROP TABLE " ++ rest)) :=
    mem_wordTokens_leading "DROP TABLE".data "DROP" rest
      (by decide) (by decide) (by decide)
  exact detect_of_entry _ (["DROP"], "DROP", "DDL") (by decide)
    ((containsPhrase_singleton _ _).mpr htok)

/-- Every `GRANT ...` input reports PERMISSION. -/
theorem detect_grant_mem (rest : String) :
    "PERMISSION" ∈ detect_mutating_keywords ("GRANT " ++ rest) := by
  have htok : "GRANT" ∈ wordTokens (normalizeChars ("GRANT " ++ rest)) :=
    mem_wordTokens_leading "GRANT".data "GRANT" rest
      (by decide) (by decide) (by decide)
  exact (detect_of_entry _ (["GRANT"], "GRANT", "PERMISSION") (by decide)
    ((containsPhrase_singleton _ _).mpr htok)).2

/-- Claim C5: `detect_mutating_keywords` adds both the literal keyword label
and its category label: every `CREATE TABLE ...` input yields a superset of
{CREATE, DDL}, every `DROP TABLE ...` a superset of {DROP, DDL}, and every
`GRANT ... TO ...` a superset of {PERMISSION}. -/
theorem claim_C5_keyword_and_category (a rest : String) :
    ("CREATE" ∈ detect_mutating_keywords ("CREATE TABLE " ++ rest) ∧
     "DDL" ∈ detect_mutating_keywords ("CREATE TABLE " ++ rest)) ∧
    ("DROP" ∈ detect_mutating_keywords ("DROP TABLE " ++ rest) ∧
     "DDL" ∈ detect_mutating_keywords ("DROP TABLE " ++ rest)) ∧
    "PERMISSION" ∈ detect_mutating_keywords ("GRANT " ++ a ++ " TO " ++ rest) := by
  refine ⟨detect_create_table_mem rest, detect_drop_table_mem rest, ?_⟩
  have hassoc : "GRANT " ++ a ++ " TO " ++ rest = "GRANT " ++ (a ++ (" TO " ++ rest)) := by
    rw [String.append_assoc, String.append_assoc]
  rw [hassoc]
  exact detect_grant_mem (a ++ (" TO " ++ rest))

/-- Claim C6: case invariance — inputs that agree up to letter case yield
identical keyword sets; in particular any casing variant of CREATE in a
`... TABLE ...` statement still reports CREATE and DDL. -/
theorem claim_C6_case_invariance :
    (∀ s t : String, s.data.map upChar = t.data.map upChar →
      detect_mutating_keywords s = detect_mutating_keywords t) ∧
    (∀ v rest : String, v.data.map upChar = "CREATE".data →
      "CREATE" ∈ detect_mutating_keywords (v ++ (" TABLE " ++ rest)) ∧
      "DDL" ∈ detect_mutating_keywords (v ++ (" TABLE " ++ rest))) := by
  have hinv : ∀ s t : String, s.data.map upChar = t.data.map upChar →
      detect_mutating_keywords s = detect_mutating_keywords t := by
    intro s t h
    unfold detect_mutating_keywords
    rw [normalizeChars_eq_of_fold h]
  refine ⟨hinv, ?_⟩
  intro v rest hv
  have hfold : (v ++ (" TABLE " ++ rest)).data.map upChar =
      (("CREATE" ++ (" TABLE " ++ rest)) : String).data.map upChar := by
    simp only [String.data_append, List.map_append]
    rw [hv, show ("CREATE".data).map upChar = "CREATE".data by decide]
  rw [hinv _ _ hfold]
  have hjoin : ("CREATE" ++ (" TABLE " ++ rest) : String) = "CREATE TABLE " ++ rest := by
    rw [← String.append_assoc]
    rw [show ("CREATE" ++ " TABLE " : String) = "CREATE TABLE " by decide]
  rw [hjoin]
  exact detect_create_table_mem rest

/-- Witness for C6 at the tests' mixed-case input. -/
theorem claim_C6_witness :
    detect_mutating_keywords "CrEaTe TaBlE test (id int)" =
      detect_mutating_keywords "create table test (id int)" :=
  claim_C6_case_invariance.1 _ _ (by decide)

/-- Claim C7: a taxonomy keyword is only reported when it occurs as a
whole-word token of the normalized text, never merely inside a longer
identifier; in particular an input whose only occurrence of DELETE is inside
the identifier `DELETE_LOG_TABLE` reports nothing. -/
theorem claim_C7_whole_word :
    (∀ sql : String, "DELETE" ∈ detect_mutating_keywords sql →
      "DELETE" ∈ wordTokens (normalizeChars sql)) ∧
    detect_mutating_keywords "SELECT * FROM DELETE_LOG_TABLE WHERE X = 1" = [] := by
  constructor
  · intro sql h
    rcases (mem_detect_iff sql "DELETE").mp h with ⟨e, he, hph, hk⟩
    simp only [MUTATING_TAXONOMY, List.mem_cons, List.not_mem_nil, or_false] at he
    rcases he with rfl | rfl | rfl | rfl | rfl | rfl | rfl | rfl | rfl | rfl | rfl | rfl |
      rfl | rfl | rfl | rfl | rfl <;>
      first
        | exact (containsPhrase_singleton "DELETE" _).mp hph
        | (rcases hk with h' | h' <;> exact absurd h' (by decide))
  · decide

/-- Witness for C7 at a concrete input that does report DELETE. -/
theorem claim_C7_witness :
    ("DELETE" ∈ detect_mutating_keywords "DELETE FROM users") ∧
    "DELETE" ∈ wordTokens (normalizeChars "DELETE FROM users") :=
  ⟨by decide, claim_C7_whole_word.1 "DELETE FROM users" (by decide)⟩

/-- Claim C9: all three analyzers are total functions of the input text — they
always return a value — and the empty string yields the empty/false results. -/
theorem claim_C9_totality :
    detect_mutating_keywords "" = [] ∧
    check_sql_injection_risk "" = [] ∧
    detect_transaction_bypass_attempt "" = false ∧
    (∀ sql : String, ∃ ks : List String, detect_mutating_keywords sql = ks) ∧
    (∀ sql : String, ∃ fs : List String, check_sql_injection_risk sql = fs) ∧
    (∀ sql : String, ∃ b : Bool, detect_transaction_bypass_attempt sql = b) :=
  ⟨by decide, by decide, by decide,
   fun _ => ⟨_, rfl⟩, fun _ => ⟨_, rfl⟩, fun _ => ⟨_, rfl⟩⟩

/-- Counterexample to claim C10: on the spec-modelled detectors the pure
SELECT `SELECT pg_sleep(5)` matches no taxonomy keyword and no injection
signature, so neither detector reports anything — the claim's disjunction
fails at this input. -/
theorem claim_C10_counterexample :
    detect_mutating_keywords "SELECT pg_sleep(5)" = [] ∧
    check_sql_injection_risk "SELECT pg_sleep(5)" = [] := by
  exact ⟨by decide, by decide⟩

/-- Claim C10 as amended: every input beginning with the keyword COPY reports
the COPY keyword and the SYSTEM category, so `detect_mutating_keywords`
returns a non-empty result for it. -/
theorem claim_C10_amended_copy (rest : String) :
    "COPY" ∈ detect_mutating_keywords ("COPY " ++ rest) ∧
    "SYSTEM" ∈ detect_mutating_keywords ("COPY " ++ rest) ∧
    detect_mutating_keywords ("COPY " ++ rest) ≠ [] := by
  have htok : "COPY" ∈ wordTokens (normalizeChars ("COPY " ++ rest)) :=
    mem_wordTokens_leading "COPY".data "COPY" rest (by decide) (by decide) (by decide)
  have hm := detect_of_entry _ (["COPY"], "COPY", "SYSTEM") (by decide)
    ((containsPhrase_singleton _ _).mpr htok)
  exact ⟨hm.1, hm.2, List.ne_nil_of_mem hm.1⟩

/-- Claim C1: a pure SELECT/WITH read — no taxonomy, transaction-control or
signature-opening token, no semicolon, no trailing comment marker — yields an
empty keyword set, an empty finding list and a false bypass verdict. -/
theorem claim_C1_pure_reads (sql : String) (h : isSafeRead sql = true) :
    detect_mutating_keywords sql = [] ∧
    check_sql_injection_risk sql = [] ∧
    detect_transaction_bypass_attempt sql = false := by
  unfold isSafeRead at h
  rw [Bool.and_eq_true, Bool.and_eq_true] at h
  obtain ⟨⟨hall, hsemi⟩, htrail⟩ := h
  have hforb : ∀ t ∈ wordTokens (normalizeChars sql),
      FORBIDDEN_READ_TOKENS.contains t = false := by
    intro t ht
    have hx := (List.all_eq_true.mp hall) t ht
    rwa [Bool.not_eq_true'] at hx
  have hnot : ∀ w : String, FORBIDDEN_READ_TOKENS.contains w = true →
      w ∉ wordTokens (normalizeChars sql) := by
    intro w hw hmem
    rw [hforb w hmem] at hw
    exact absurd hw (by simp)
  have hnp : ∀ (p : String) (ps : List String), FORBIDDEN_READ_TOKENS.contains p = true →
      containsPhrase (p :: ps) (wordTokens (normalizeChars sql)) = false := by
    intro p ps hp
    by_contra hc
    rw [Bool.not_eq_false] at hc
    exact hnot p hp (containsPhrase_head_mem p ps _ hc)
  have hdet : detect_mutating_keywords sql = [] := by
    rw [List.eq_nil_iff_forall_not_mem]
    intro k hk
    rcases (mem_detect_iff sql k).mp hk with ⟨e, he, hph, _⟩
    simp only [MUTATING_TAXONOMY, List.mem_cons, List.not_mem_nil, or_false] at he
    rcases he with rfl | rfl | rfl | rfl | rfl | rfl | rfl | rfl | rfl | rfl | rfl | rfl |
      rfl | rfl | rfl | rfl | rfl <;>
      exact hnot _ (by decide) (containsPhrase_head_mem _ _ _ hph)
  have htxn : hasTxnKeyword (wordTokens (normalizeChars sql)) = false := by
    unfold hasTxnKeyword
    rw [hnp "COMMIT" [] (by decide), hnp "ROLLBACK" [] (by decide),
      hnp "BEGIN" [] (by decide), hnp "START" ["TRANSACTION"] (by decide)]
    rfl
  have hbyp : detect_transaction_bypass_attempt sql = false := by
    unfold detect_transaction_bypass_attempt
    rw [htxn, Bool.false_and]
  have staut : hasTautology (normalizeChars sql) = false := by
    by_contra hc
    rw [Bool.not_eq_false] at hc
    unfold hasTautology at hc
    exact hnot "OR" (by decide) (tautScan_or_token _ [] false (by decide) hc)
  have sstack : hasStacking (normalizeChars sql) = false :=
    hasStacking_of_no_semicolon _ (by rwa [Bool.not_eq_true'] at hsemi)
  have sunion : hasUnionSelect (wordTokens (normalizeChars sql)) = false := by
    unfold hasUnionSelect
    rw [hnp "UNION" ["SELECT"] (by decide), hnp "UNION" ["ALL", "SELECT"] (by decide)]
    rfl
  have strail : hasTrailingDashDash sql = false := by
    rwa [Bool.not_eq_true'] at htrail
  have hinj : check_sql_injection_risk sql = [] := by
    unfold check_sql_injection_risk
    rw [staut, sstack, sunion, strail]
    simp
  exact ⟨hdet, hinj, hbyp⟩

/-- Witness for C1 at the tests' CTE read query. -/
theorem claim_C1_witness :
    isSafeRead "WITH t AS (SELECT * FROM users) SELECT * FROM t" = true ∧
    (detect_mutating_keywords "WITH t AS (SELECT * FROM users) SELECT * FROM t" = [] ∧
     check_sql_injection_risk "WITH t AS (SELECT * FROM users) SELECT * FROM t" = [] ∧
     detect_transaction_bypass_attempt "WITH t AS (SELECT * FROM users) SELECT * FROM t" =
       false) :=
  ⟨by decide, claim_C1_pure_reads _ (by decide)⟩

/-! ## Comment insertion does not suppress the bypass verdict -/

/-- Normalization of a plain chunk joined to a remainder by a space. -/
theorem normalize_space_join (a b : List Char) (ha : plainChars a = true) :
    normalizeChars ⟨a ++ ' ' :: b⟩ =
      a.map upChar ++ ' ' :: (stripC b).map upChar := by
  unfold normalizeChars
  show (stripC (a ++ ' ' :: b)).map upChar = _
  rw [stripC_append a ha, stripC_cons ' ' (by decide), List.map_append, List.map_cons,
    show upChar ' ' = ' ' from rfl]

/-- Normalization after inserting a line comment at the space: the comment
body disappears, leaving only whitespace. -/
theorem normalize_comment_line (a b s : List Char)
    (ha : plainChars a = true) (hs : ∀ c ∈ s, c ≠ '\n') :
    normalizeChars ⟨a ++ ' ' :: '-' :: '-' :: (s ++ '\n' :: b)⟩ =
      a.map upChar ++ ' ' :: ' ' :: '\n' :: (stripC b).map upChar := by
  unfold normalizeChars
  show (stripC (a ++ ' ' :: '-' :: '-' :: (s ++ '\n' :: b))).map upChar = _
  rw [stripC_append a ha, stripC_cons ' ' (by decide)]
  rw [show stripC ('-' :: '-' :: (s ++ '\n' :: b)) = ' ' :: stripLine (s ++ '\n' :: b) from
    by rw [stripC, if_pos ⟨rfl, rfl⟩]]
  rw [stripLine_append s hs b]
  rw [List.map_append, List.map_cons, List.map_cons, List.map_cons,
    show upChar ' ' = ' ' from rfl, show upChar '\n' = '\n' from rfl]

/-- Normalization after inserting a block comment at the space: the comment
body disappears, leaving only whitespace. -/
theorem normalize_comment_block (a b s : List Char)
    (ha : plainChars a = true) (hs : ∀ c ∈ s, c ≠ '*') :
    normalizeChars ⟨a ++ ' ' :: '/' :: '*' :: (s ++ '*' :: '/' :: ' ' :: b)⟩ =
      a.map upChar ++ ' ' :: ' ' :: ' ' :: (stripC b).map upChar := by
  unfold normalizeChars
  show (stripC (a ++ ' ' :: '/' :: '*' :: (s ++ '*' :: '/' :: ' ' :: b))).map upChar = _
  rw [stripC_append a ha, stripC_cons ' ' (by decide)]
  rw [show stripC ('/' :: '*' :: (s ++ '*' :: '/' :: ' ' :: b)) =
        ' ' :: stripBlock (s ++ '*' :: '/' :: (' ' :: b)) from
    by rw [stripC, if_neg (by decide), if_pos ⟨rfl, rfl⟩]]
  rw [stripBlock_append s hs (' ' :: b), stripC_cons ' ' (by decide)]
  rw [List.map_append, List.map_cons, List.map_cons, List.map_cons,
    show upChar ' ' = ' ' from rfl]

/-- The token lists of the space-joined text and of the comment-widened texts
coincide: extra whitespace does not change tokens. -/
theorem tokens_variants (A B : List Char) :
    wordTokens (A ++ ' ' :: ' ' :: '\n' :: B) = wordTokens (A ++ ' ' :: B) ∧
    wordTokens (A ++ ' ' :: ' ' :: ' ' :: B) = wordTokens (A ++ ' ' :: B) := by
  constructor
  · rw [wordTokens_append_sep A ' ' (by decide) (' ' :: '\n' :: B),
      wordTokens_cons_nonword ' ' (by decide) ('\n' :: B),
      wordTokens_cons_nonword '\n' (by decide) B,
      wordTokens_append_sep A ' ' (by decide) B]
  · rw [wordTokens_append_sep A ' ' (by decide) (' ' :: ' ' :: B),
      wordTokens_cons_nonword ' ' (by decide) (' ' :: B),
      wordTokens_cons_nonword ' ' (by decide) B,
      wordTokens_append_sep A ' ' (by decide) B]

/-- A leading character that is not a semicolon does not affect the stacking
scanner. -/
theorem hasStacking_cons_ws (c : Char) (hc : (c == ';') = false) (z : List Char) :
    hasStacking (c :: z) = hasStacking z := by
  rw [hasStacking, hc, Bool.false_and, Bool.false_or]

/-- A leading whitespace character does not affect the non-whitespace test. -/
theorem any_nonWs_cons_ws (c : Char) (hc : (!c.isWhitespace) = false) (z : List Char) :
    (c :: z).any (fun d => !d.isWhitespace) = z.any (fun d => !d.isWhitespace) := by
  rw [List.any_cons, hc, Bool.false_or]

/-- Widening the whitespace between the two halves does not change whether the
stacking scanner fires (line-comment variant). -/
theorem hasStacking_variant_line (A B : List Char) :
    (hasStacking (A ++ ' ' :: ' ' :: '\n' :: B) = true ↔
      hasStacking (A ++ ' ' :: B) = true) := by
  rw [hasStacking_append, hasStacking_append]
  simp only [any_nonWs_cons_ws ' ' (by decide), any_nonWs_cons_ws '\n' (by decide),
    hasStacking_cons_ws ' ' (by decide), hasStacking_cons_ws '\n' (by decide)]

/-- Widening the whitespace between the two halves does not change whether the
stacking scanner fires (block-comment variant). -/
theorem hasStacking_variant_block (A B : List Char) :
    (hasStacking (A ++ ' ' :: ' ' :: ' ' :: B) = true ↔
      hasStacking (A ++ ' ' :: B) = true) := by
  rw [hasStacking_append, hasStacking_append]
  simp only [any_nonWs_cons_ws ' ' (by decide), hasStacking_cons_ws ' ' (by decide)]

/-- Claim C8: comment robustness.  If a text `a␣b` (with a plain prefix `a`)
is a transaction-bypass attempt, then inserting a line comment or a block
comment at the space does not change the verdict from true to false. -/
theorem claim_C8_comment_robustness (a b s : List Char)
    (ha : plainChars a = true)
    (horig : detect_transaction_bypass_attempt ⟨a ++ ' ' :: b⟩ = true) :
    ((∀ c ∈ s, c ≠ '\n') →
      detect_transaction_bypass_attempt
        ⟨a ++ ' ' :: '-' :: '-' :: (s ++ '\n' :: b)⟩ = true) ∧
    ((∀ c ∈ s, c ≠ '*') →
      detect_transaction_bypass_attempt
        ⟨a ++ ' ' :: '/' :: '*' :: (s ++ '*' :: '/' :: ' ' :: b)⟩ = true) := by
  unfold detect_transaction_bypass_attempt at horig ⊢
  rw [normalize_space_join a b ha, Bool.and_eq_true, Bool.or_eq_true] at horig
  obtain ⟨htxn, hrest⟩ := horig
  constructor
  · intro hs
    rw [normalize_comment_line a b s ha hs]
    rw [(tokens_variants (a.map upChar) ((stripC b).map upChar)).1]
    rw [Bool.and_eq_true, Bool.or_eq_true]
    refine ⟨htxn, ?_⟩
    rcases hrest with hstack | hmut
    · exact Or.inl ((hasStacking_variant_line _ _).mpr hstack)
    · exact Or.inr hmut
  · intro hs
    rw [normalize_comment_block a b s ha hs]
    rw [(tokens_variants (a.map upChar) ((stripC b).map upChar)).2]
    rw [Bool.and_eq_true, Bool.or_eq_true]
    refine ⟨htxn, ?_⟩
    rcases hrest with hstack | hmut
    · exact Or.inl ((hasStacking_variant_block _ _).mpr hstack)
    · exact Or.inr hmut

/-- Witness for C8: a concrete bypass attempt keeps its verdict with a line
comment and with a block comment inserted between its tokens. -/
theorem claim_C8_witness :
    detect_transaction_bypass_attempt
      ⟨"SELECT 1; COMMIT;".data ++ ' ' :: "DROP TABLE t".data⟩ = true ∧
    detect_transaction_bypass_attempt
      ⟨"SELECT 1; COMMIT;".data ++ ' ' :: '-' :: '-' ::
        (" note".data ++ '\n' :: "DROP TABLE t".data)⟩ = true ∧
    detect_transaction_bypass_attempt
      ⟨"SELECT 1; COMMIT;".data ++ ' ' :: '/' :: '*' ::
        (" note".data ++ '*' :: '/' :: ' ' :: "DROP TABLE t".data)⟩ = true :=
  ⟨by decide,
   (claim_C8_comment_robustness "SELECT 1; COMMIT;".data "DROP TABLE t".data " note".data
      (by decide) (by decide)).1 (by decide),
   (claim_C8_comment_robustness "SELECT 1; COMMIT;".data "DROP TABLE t".data " note".data
      (by decide) (by decide)).2 (by decide)⟩

end MutableSqlDetector
